import Mathlib

/-!
Verification of the hospital-gpt incremental semantic retrieval core.

The Python sources (`backend/embeddings.py`, `backend/rag_engine.py`,
`backend/query_handler.py`) are shallowly embedded below.  External
effects — the corpus file read, the MD5 digest, the OpenAI embedding
service, the generation call, and FAISS persistence — are passed in as
explicit parameters/oracles, so each Python method becomes a pure Lean
function of (state, oracle outcomes).  Floating-point embedding vectors
are idealised as rational vectors; squared-L2 distance is exact.
-/

namespace HospitalGPT

/-! ## Python string semantics (ASCII model) -/

/-- Whitespace characters recognised by Python `str.split()` / `str.strip()`
(ASCII subset). -/
def pyIsSpace (c : Char) : Bool :=
  c = ' ' || c = '\t' || c = '\n' || c = '\r' || c = '\x0b' || c = '\x0c'

/-- Python `str.lower()` on one character (ASCII model). -/
def pyLowerChar (c : Char) : Char :=
  if 'A' ≤ c ∧ c ≤ 'Z' then Char.ofNat (c.toNat + 32) else c

/-- Python `str.lower()`. -/
def pyLower (s : String) : String := ⟨s.data.map pyLowerChar⟩

/-- Python `str.strip()` on a character list. -/
def pyStrip (l : List Char) : List Char :=
  ((l.dropWhile pyIsSpace).reverse.dropWhile pyIsSpace).reverse

/-- Python `str.strip()`. -/
def pyStripStr (s : String) : String := ⟨pyStrip s.data⟩

/-- Python `str.split()` (split on whitespace runs, dropping empties). -/
def pyWords (l : List Char) : List (List Char) :=
  (l.splitOnP pyIsSpace).filter (· ≠ [])

/-- Does the needle `w` occur at the start of `l`?  (Model of Python
substring matching at one position.) -/
def beginsWith : List Char → List Char → Bool
  | [], _ => true
  | _ :: _, [] => false
  | a :: as, b :: bs => a = b && beginsWith as bs

/-- Python `w in s` substring containment on character lists. -/
def containsSub : List Char → List Char → Bool
  | w, [] => beginsWith w []
  | w, c :: cs => beginsWith w (c :: cs) || containsSub w cs

/-- Python `s.split(sep)` for a one-character separator (empties kept). -/
def splitOnChar (sep : Char) (l : List Char) : List (List Char) :=
  l.splitOnP (· = sep)

/-- Python `s.split(sep)` for a two-character separator `[a, b]`
(non-overlapping, left-to-right; empties kept). -/
def splitOnPair (a b : Char) : List Char → List (List Char)
  | [] => [[]]
  | [c] => [[c]]
  | c :: d :: rest =>
    if c = a ∧ d = b then
      [] :: splitOnPair a b rest
    else
      match splitOnPair a b (d :: rest) with
      | [] => [[c]]
      | w :: ws => (c :: w) :: ws

/-- Python `sep.join(parts)`. -/
def strJoin (sep : String) (parts : List String) : String :=
  String.intercalate sep parts

/-! ## embeddings.py — `HospitalEmbeddings`

State split: `Mem` models the in-process attributes `self.index` (the
in-memory FAISS handle; `none` models the `self.index = None` failure
state) and `self.embeddings_cache` (`.get('file_hash')` and
`.get('chunks', [])`).  `Store` models the durable artifacts: the FAISS
index file at `index_path` (`none` = file missing) and the JSON cache
file at `embeddings_cache_path`. -/

/-- An embedding vector (floats idealised as rationals). -/
abbrev Vec := List ℚ

/-- Model of `self.dimension = 1536` (OpenAI embedding dimension). -/
def dimension : ℕ := 1536

/-- Model of a `np.zeros((·, d))` row: the deterministic placeholder vector. -/
def zerosVec (d : ℕ) : Vec := List.replicate d (0 : ℚ)

/-- The in-memory `self.embeddings_cache` fields the code reads:
`.get('file_hash')` and `.get('chunks', [])`. -/
structure MemCache where
  fileHash : Option String
  chunks : List String
deriving DecidableEq

/-- In-memory state of a `HospitalEmbeddings` instance. -/
structure Mem where
  index : Option (List Vec)
  cache : MemCache
deriving DecidableEq

/-- The persisted `embeddings_cache.json` contents written by
`update_embeddings` (the `num_embeddings` field is `len(chunks)` and is
redundant, so it is not carried separately). -/
structure CacheFile where
  file_hash : String
  chunks : List String
deriving DecidableEq

/-- Durable state: the FAISS index file and the JSON cache file
(`none` = file absent). -/
structure Store where
  indexFile : Option (List Vec)
  cacheFile : Option CacheFile
deriving DecidableEq

/-- Model of `HospitalEmbeddings._generate_embeddings`: one service call per text,
appending one vector per input in order; any exception inside the loop is
caught and the whole call returns `np.zeros((len(texts), self.dimension))`.
`svc` is the outcome of `client.embeddings.create` per input text. -/
def generate_embeddings (svc : String → Except Unit Vec) (texts : List String) : List Vec :=
  if texts.all (fun t => (svc t).toOption.isSome) then
    texts.map (fun t => (svc t).toOption.getD (zerosVec dimension))
  else
    List.replicate texts.length (zerosVec dimension)

/-- The chunking pass of `update_embeddings`:
`[chunk.strip() for chunk in content.split('\n\n') if chunk.strip() and len(chunk.strip()) > 50]`. -/
def chunkSplit (content : String) : List String :=
  (((splitOnPair '\n' '\n' content.data).map pyStrip).filter
    (fun c => c ≠ [] ∧ 50 < c.length)).map (fun c => (⟨c⟩ : String))

/-- Oracle bundle for one `update_embeddings` call: the corpus file read
outcome (used both by `_compute_file_hash` and by the `open(...).read()`
in the body), the digest function (`hashlib.md5(...).hexdigest()`
abstracted), the embedding-service outcome, and whether
`faiss.write_index` / the cache-file write succeed.  A failed cache write
is caught inside `_save_embeddings_cache`, so it does not raise. -/
structure UpdateIO where
  corpus : Except Unit String
  md5 : String → String
  svc : String → Except Unit Vec
  writeIndexOk : Bool
  writeCacheOk : Bool

/-- Result of `update_embeddings`: the returned bool and the post states. -/
structure UpdateOut where
  updated : Bool
  mem : Mem
  store : Store
deriving DecidableEq

/-- Model of `HospitalEmbeddings.update_embeddings`, line for line:
`_compute_file_hash` catches read errors and returns `""`; the no-change
early return requires the in-memory cached hash to equal the fresh hash
AND `os.path.exists(self.index_path)`; otherwise the corpus is re-read,
re-chunked and re-embedded, `self.index` is replaced with the freshly
built index (before any persistence), the index file is written, then the
cache file; any exception in that block returns `False`.  Note that the
code never assigns `self.embeddings_cache` in this method. -/
def update_embeddings (io : UpdateIO) (mem : Mem) (store : Store) : UpdateOut :=
  let current_hash :=
    match io.corpus with
    | .ok c => io.md5 c
    | .error _ => ""
  if mem.cache.fileHash = some current_hash ∧ store.indexFile.isSome then
    ⟨false, mem, store⟩
  else
    match io.corpus with
    | .error _ => ⟨false, mem, store⟩
    | .ok content =>
      let chunks := chunkSplit content
      let embeddings := generate_embeddings io.svc chunks
      let mem' : Mem := { mem with index := some embeddings }
      if io.writeIndexOk then
        let store' : Store := { store with indexFile := some embeddings }
        let store'' : Store :=
          if io.writeCacheOk then
            { store' with cacheFile := some ⟨current_hash, chunks⟩ }
          else store'
        ⟨true, mem', store''⟩
      else
        ⟨false, mem', store⟩

/-! ### Search path -/

/-- Squared Euclidean (L2) distance, the `IndexFlatL2` metric. -/
def l2sq (u v : Vec) : ℚ := ((u.zip v).map (fun p => (p.1 - p.2) ^ 2)).sum

/-- Comparison on (chunk index, distance) pairs used to rank hits. -/
def distLE (a b : ℕ × ℚ) : Prop := a.2 ≤ b.2

instance : DecidableRel distLE := fun a b => inferInstanceAs (Decidable (a.2 ≤ b.2))

instance : IsTotal (ℕ × ℚ) distLE := ⟨fun a b => le_total a.2 b.2⟩

instance : IsTrans (ℕ × ℚ) distLE := ⟨fun _ _ _ h h2 => le_trans h h2⟩

/-- Model of `faiss.IndexFlatL2.search(query, k)` over the vectors added to the
index: the `min(k, N)` nearest (index, distance) pairs, ascending by
distance.  (For `k > N` FAISS pads the output with index `-1` and
distance `FLT_MAX`; every padded entry fails the `< 1.0` relevance filter
applied by the only caller, so the padding is omitted here.) -/
def faissSearch (vecs : List Vec) (q : Vec) (k : ℕ) : List (ℕ × ℚ) :=
  (List.insertionSort distLE ((vecs.map (l2sq q)).enum)).take k

/-- The relevance threshold from `search_embeddings` (`distance < 1.0`). -/
def relevanceThreshold : ℚ := 1

/-- The hits of `search_embeddings` that survive the relevance filter. -/
def relevantHits (vecs : List Vec) (q : Vec) (k : ℕ) : List (ℕ × ℚ) :=
  (faissSearch vecs q k).filter (fun h => h.2 < relevanceThreshold)

/-- The loop `for i, distance in ...: relevant_chunks.append(chunks[i])`
restricted to the kept hits: `chunks[i]` raises `IndexError` when `i` is
out of range, which aborts the whole `try` block. -/
def lookupChunks (chunks : List String) : List (ℕ × ℚ) → Except Unit (List String)
  | [] => .ok []
  | (i, _) :: rest =>
    match chunks[i]? with
    | some c => (lookupChunks chunks rest).map (fun cs => c :: cs)
    | none => .error ()

/-- The predefined chunks of `HospitalEmbeddings._fallback_search`. -/
def fallback_chunks : List String :=
  ["Total Hospital Bed Capacity: 750 beds across 18 specialized departments",
   "Hospital Infrastructure: 210 hospital rooms with state-of-the-art medical facilities",
   "Patient Statistics: 125,000 annual patient admissions, averaging 342 daily admissions",
   "Departmental Bed Information: Emergency Ward (50 beds), ICU (30 beds), Surgical Ward (100 beds), Pediatric Ward (60 beds)",
   "Operational Metrics: Overall Bed Occupancy Rate of 72.5%, Average Patient Stay 4.3 days"]

/-- The keyword list of `_fallback_search`. -/
def fallback_keywords : List String := ["bed", "beds", "available", "capacity", "room"]

/-- Model of `HospitalEmbeddings._fallback_search`: keyword filter (the condition
tests the query, not the chunk, exactly as in the source comprehension),
then truncate to `top_k`, defaulting to the full predefined list. -/
def fallback_search (query : String) (top_k : ℕ) : List String :=
  let query_lower := pyLower query
  let keyword_matches :=
    fallback_chunks.filter
      (fun _ => fallback_keywords.any (fun kw => containsSub kw.data query_lower.data))
  if keyword_matches ≠ [] then keyword_matches.take top_k
  else fallback_chunks.take top_k

/-- Body of `HospitalEmbeddings.search_embeddings` after the possible
re-initialization, acting on the (possibly re-initialized) state `m`.
`chunks` is read from the in-memory `self.embeddings_cache`; an empty
list short-circuits to the fallback.  `_generate_embeddings` never
raises (it catches internally), so the only exceptions reaching the
outer `except` are the `AttributeError` from `None.search` and the
`IndexError` from `chunks[i]`; both return
`_fallback_search(query, top_k)`. -/
def search_core (svc : String → Except Unit Vec) (m : Mem)
    (query : String) (top_k : ℕ) : List String :=
  if m.cache.chunks = [] then fallback_search query top_k
  else
    match m.index with
    | none => fallback_search query top_k
    | some vecs =>
      let qe := (generate_embeddings svc [query]).headD (zerosVec dimension)
      match lookupChunks m.cache.chunks (relevantHits vecs qe top_k) with
      | .error _ => fallback_search query top_k
      | .ok relevant =>
        if relevant = [] then fallback_search query top_k else relevant

/-- Model of `HospitalEmbeddings.search_embeddings`: when `self.index is None`
the code first calls `self.initialize_embeddings()`; `reinit` is the
state that call produces (that method catches its own exceptions, so it
returns some state rather than raising).  Then the body above runs on
the resulting state. -/
def search_embeddings (svc : String → Except Unit Vec) (reinit : Mem)
    (mem : Mem) (query : String) (top_k : ℕ) : List String :=
  search_core svc (if mem.index.isNone then reinit else mem) query top_k

/-! ## rag_engine.py — `RAGEngine` -/

/-- The `status` and `response` fields of the pydantic `QueryResponse`.
(`source_info` is a metadata dictionary not referenced by any verified
property; it is not modelled.) -/
structure QueryResponse where
  status : String
  response : String
deriving DecidableEq

/-- Message of `RAGEngine._generate_fallback_response`. -/
def fallback_msg : String :=
  "I apologize, but I don\x27t have enough information to answer your question accurately. Please try asking something else about our hospital services, staff, or facilities."

/-- Message of `RAGEngine._generate_no_data_response`. -/
def no_data_msg : String :=
  "I apologize, but I cannot find specific information about this in our database. Please try asking about another topic or rephrase your question."

/-- Model of `RAGEngine._generate_fallback_response`. -/
def generate_fallback_response : QueryResponse := ⟨"no_data", fallback_msg⟩

/-- Model of `RAGEngine._generate_no_data_response`. -/
def generate_no_data_response : QueryResponse := ⟨"no_data", no_data_msg⟩

/-- Keyword list of `RAGEngine._is_research_query`. -/
def research_keywords : List String :=
  ["research", "studies", "trials", "publications", "papers", "completed", "ongoing", "active"]

/-- Model of `RAGEngine._is_research_query`: substring test on the lower-cased query. -/
def is_research_query (query : String) : Bool :=
  research_keywords.any (fun kw => containsSub kw.data (pyLower query).data)

/-- Model of `RAGEngine._determine_response_type`: substring tests on the
lower-cased query, first match wins. -/
def determine_response_type (query : String) : String :=
  let ql := (pyLower query).data
  if ["chief", "officer", "leader", "executive"].any (fun t => containsSub t.data ql) then
    "leadership"
  else if ["statistics", "numbers", "metrics", "count"].any (fun t => containsSub t.data ql) then
    "statistics"
  else if ["department", "unit", "ward", "center"].any (fun t => containsSub t.data ql) then
    "department"
  else "general"

/-- The sentence split of `_format_and_deduplicate_context`:
`[s.strip() for s in context.split('.') if s.strip()]`. -/
def sentencesOf (context : String) : List (List Char) :=
  ((splitOnChar '.' context.data).map pyStrip).filter (· ≠ [])

/-- The normalized signature `' '.join(sentence.lower().split())`. -/
def simpleForm (s : List Char) : List Char :=
  (List.intercalate [' '] (pyWords (s.map pyLowerChar)))

/-- The inner loop of `_format_and_deduplicate_context`: walk the
sentences of one context, keeping a sentence only if its normalized
signature is not yet in `seen`, and recording every kept signature.
Returns the grown `seen` set and the kept sentences (in order). -/
def uniqueSentences (seen : List (List Char)) :
    List (List Char) → List (List Char) × List (List Char)
  | [] => (seen, [])
  | s :: rest =>
    if simpleForm s ∈ seen then uniqueSentences seen rest
    else
      ((uniqueSentences (simpleForm s :: seen) rest).1,
        s :: (uniqueSentences (simpleForm s :: seen) rest).2)

/-- The outer loop of `_format_and_deduplicate_context`: thread the
`seen_content` set across contexts, producing the per-context lists of
kept (unique) sentences. -/
def dedupPass (seen : List (List Char)) :
    List String → List (List Char) × List (List (List Char))
  | [] => (seen, [])
  | ctx :: rest =>
    ((dedupPass (uniqueSentences seen (sentencesOf ctx)).1 rest).1,
      (uniqueSentences seen (sentencesOf ctx)).2 ::
        (dedupPass (uniqueSentences seen (sentencesOf ctx)).1 rest).2)

/-- The flat sequence of sentences emitted by the deduplication pass. -/
def emittedSentences (contexts : List String) : List (List Char) :=
  (dedupPass [] contexts).2.flatten

/-- Model of `RAGEngine._format_and_deduplicate_context`: sections are
`'. '.join(unique_sentences) + '.'` for each context with at least one
kept sentence, joined by blank lines. -/
def format_and_deduplicate_context (contexts : List String) : String :=
  strJoin "\n\n"
    (((dedupPass [] contexts).2.filter (· ≠ [])).map
      (fun us => strJoin ". " (us.map (fun c => (⟨c⟩ : String))) ++ "."))

/-- Body of `RAGEngine.process_query` acting on the retrieved
`contexts`.  Oracles: `researchFound` abstracts whether
`_extract_research_data` (a regex scan) finds any match in the contexts;
`gen` is the outcome of the `chat.completions.create` call; `fmt`
abstracts `_format_response` (pure text formatting of the completion,
given the response type).  Every exception inside the `try` block —
modelled by the `gen` failure — is caught and becomes the fallback
response.  `search_embeddings` itself never raises. -/
def process_contexts (contexts : List String) (researchFound : List String → Bool)
    (gen : Except Unit String) (fmt : String → String → String)
    (query : String) : QueryResponse :=
  if contexts = [] then generate_no_data_response
  else if is_research_query query ∧ ¬ researchFound contexts then generate_no_data_response
  else
    match gen with
    | .error _ => generate_fallback_response
    | .ok resp => ⟨"success", fmt resp (determine_response_type query)⟩

/-- Model of `RAGEngine.process_query` proper: retrieve the contexts with
`top_k=5`, then run the body above on them. -/
def process_query (svc : String → Except Unit Vec) (reinit : Mem)
    (researchFound : List String → Bool) (gen : Except Unit String)
    (fmt : String → String → String) (mem : Mem) (query : String) : QueryResponse :=
  process_contexts (search_embeddings svc reinit mem query 5) researchFound gen fmt query

/-! ## query_handler.py — `QueryHandler` -/

/-- Model of `QueryHandler._preprocess_query`: lower-case, strip, then delete every
character outside `[a-z0-9\s]` (`re.sub(r'[^a-z0-9\s]', '', query)`). -/
def preprocess_query (query : String) : String :=
  ⟨(pyStrip ((pyLower query).data)).filter
    (fun c => ('a' ≤ c ∧ c ≤ 'z') || ('0' ≤ c ∧ c ≤ '9') || pyIsSpace c)⟩

/-- The ambiguity words of `QueryHandler._is_query_ambiguous`. -/
def ambiguity_words : List String := ["something", "anything", "whatever"]

/-- Model of `QueryHandler._is_query_ambiguous` on the preprocessed query:
fewer than three words, or one of the ambiguity words occurs as a
substring (`word in query`). -/
def is_query_ambiguous (query : String) : Bool :=
  decide ((pyWords query.data).length < 3) ||
    ambiguity_words.any (fun w => containsSub w.data query.data)

/-- Model of `QueryHandler._generate_generic_clarification`. -/
def generic_clarification : List String :=
  ["Could you provide more details about what you\x27re looking for?",
   "Can you elaborate on your request?",
   "What specific information are you interested in?"]

/-- Model of `QueryHandler._generate_hospital_clarification`. -/
def hospital_clarification : List String :=
  ["Are you looking for information about a specific department?",
   "Do you need details about patient services or medical staff?",
   "Would you like general hospital information or something more specific?"]

/-- Response of `QueryHandler._process_query`. -/
def process_query_stub_response : String :=
  "I\x27m ready to help you with your query. Could you provide more specific details?"

/-- Result of `QueryHandler.handle_query`: the returned dictionary split
into its fields, plus the (role, content) messages recorded through the
conversation manager during the call. -/
structure HandleResult where
  status : String
  questions : List String
  response : Option String
  logged : List (String × String)
deriving DecidableEq

/-- Model of `QueryHandler.handle_query`.  `ctx` models the optional `context`
dictionary as an association list; the strategy choice mirrors
`if context and context.get('domain') == 'hospital'` (an empty dict is
falsy).  The clarification branch returns before any
`conversation_manager.add_message` call, so it records nothing;
otherwise, when a conversation manager is present, the user query and
the assistant response are recorded. -/
def handle_query (hasManager : Bool) (query : String)
    (ctx : Option (List (String × String))) : HandleResult :=
  let processed := preprocess_query query
  if is_query_ambiguous processed then
    let hospitalStrategy :=
      match ctx with
      | some d => d ≠ [] && d.lookup "domain" = some "hospital"
      | none => false
    { status := "clarification_needed",
      questions := if hospitalStrategy then hospital_clarification else generic_clarification,
      response := none,
      logged := [] }
  else
    { status := "success",
      questions := [],
      response := some process_query_stub_response,
      logged :=
        if hasManager then
          [("user", query), ("assistant", process_query_stub_response)]
        else [] }

/-! ## Concrete scenarios used by the closed theorems and witnesses -/

/-- An embedding service whose every call raises. -/
def svcFail : String → Except Unit Vec := fun _ => .error ()

/-- An embedding service that succeeds on every input; the vector records
the input length so ordering is observable. -/
def svcLen : String → Except Unit Vec := fun t => .ok [(t.length : ℚ)]

/-- A concrete stand-in for the MD5 digest (any function works for the
scenarios; equality of digests coincides with equality of contents). -/
def idDigest : String → String := fun s => s

/-- First paragraph of the test corpus (longer than 50 characters). -/
def chunkA : String :=
  "Emergency Ward capacity: fifty beds with ten of them currently occupied today"

/-- Second paragraph of the test corpus (longer than 50 characters). -/
def chunkB : String :=
  "Intensive Care Unit capacity: thirty beds with twenty five currently occupied"

/-- A two-paragraph corpus. -/
def corpusAB : String := chunkA ++ "\n\n" ++ chunkB

/-- Oracles for a rebuild in which every external step succeeds
(the embedding service is down, so placeholder vectors are used — still a
successful build in the sense of `update_embeddings` returning `True`). -/
def ioBuild : UpdateIO := ⟨.ok corpusAB, idDigest, svcFail, true, true⟩

/-- Oracles for a rebuild in which `faiss.write_index` raises. -/
def ioWriteFail : UpdateIO := ⟨.ok corpusAB, idDigest, svcFail, false, true⟩

/-- In-memory state holding a previously loaded cache: one old chunk and
an old corpus digest. -/
def memOld : Mem := ⟨some [], ⟨some "OLDHASH", ["old chunk"]⟩⟩

/-- In-memory state right after `__init__` with no usable cache file. -/
def memInit : Mem := ⟨some [], ⟨none, []⟩⟩

/-- In-memory state whose index was built over zero chunks: the cache
holds an empty chunk list and the index holds no vectors. -/
def memEmptyChunks : Mem := ⟨some [], ⟨some "h", []⟩⟩

/-- Empty durable state (no index file, no cache file). -/
def storeEmpty : Store := ⟨none, none⟩

/-- First retrieved chunk of the deduplication example: restates the
bed-capacity sentence. -/
def dedupCtxA : String :=
  "Total Hospital Bed Capacity: 750 beds across 18 specialized departments. Emergency services run around the clock."

/-- Second retrieved chunk of the deduplication example: independently
restates the same bed-capacity sentence. -/
def dedupCtxB : String :=
  "Total Hospital Bed Capacity: 750 beds across 18 specialized departments. The ICU has thirty beds."

/-- The two-chunk context list of the deduplication example. -/
def dedupContexts : List String := [dedupCtxA, dedupCtxB]

/-- The sentence both example chunks contain. -/
def dedupSentence : List Char :=
  "Total Hospital Bed Capacity: 750 beds across 18 specialized departments".data

/-! ## Theorems -/

set_option maxRecDepth 8000

/-- Claim C1 (code evidence).  After a successful rebuild
(`update_embeddings` returning `True`), the freshly built in-memory index
holds one vector per new chunk and the persisted cache holds the new
chunk list — but the in-memory cached chunk list that `search_embeddings`
maps hit indices through is left untouched (the method never assigns
`self.embeddings_cache`), so a hit at position 1 of the two-vector index
cannot be mapped back through the stale one-element chunk list: the
claimed positional correspondence between the index and the chunk list
used by search does not hold. -/
theorem C1_rebuild_leaves_memory_chunks_stale :
    (update_embeddings ioBuild memOld storeEmpty).updated = true ∧
    ((update_embeddings ioBuild memOld storeEmpty).mem.index.getD []).length = 2 ∧
    (update_embeddings ioBuild memOld storeEmpty).mem.cache.chunks = ["old chunk"] ∧
    (update_embeddings ioBuild memOld storeEmpty).store.cacheFile
      = some ⟨corpusAB, [chunkA, chunkB]⟩ := by
  decide

/-- Claim C2 (counterexample).  When index persistence fails, the rebuild
fails (`update_embeddings` returns `False`), yet the in-memory index
handle has already been replaced by the newly built two-vector index —
the previously visible (index, chunk-list) pair does not remain intact,
and search would observe the new index paired with the old chunk list. -/
theorem C2_failed_persist_already_swapped_index :
    (update_embeddings ioWriteFail memOld storeEmpty).updated = false ∧
    (update_embeddings ioWriteFail memOld storeEmpty).mem.index ≠ memOld.index ∧
    ((update_embeddings ioWriteFail memOld storeEmpty).mem.index.getD []).length = 2 ∧
    (update_embeddings ioWriteFail memOld storeEmpty).mem.cache.chunks = ["old chunk"] ∧
    (update_embeddings ioWriteFail memOld storeEmpty).store = storeEmpty := by
  decide

/-- Claim C3 (code evidence).  Two consecutive `update_embeddings` calls
with an unchanged corpus both perform a full rebuild and both return
`True`: the first build writes the fresh digest only to the cache file,
never into `self.embeddings_cache`, so the second call still sees the
stale in-memory digest and rebuilds again instead of being a no-op. -/
theorem C3_second_unchanged_call_rebuilds_again :
    (update_embeddings ioBuild memInit storeEmpty).updated = true ∧
    (update_embeddings ioBuild
        (update_embeddings ioBuild memInit storeEmpty).mem
        (update_embeddings ioBuild memInit storeEmpty).store).updated = true := by
  decide

/-- Claim C5 (counterexample).  Searching with an empty cached chunk list
(an index over zero chunks) neither errors nor returns an empty result:
it returns the five predefined fallback chunks — fabricated context not
derived from the index — so the result is not the claimed explicit
empty no-relevant-context signal. -/
theorem C5_empty_chunks_return_fabricated_fallback :
    search_embeddings svcFail memInit memEmptyChunks "hello" 5 = fallback_chunks ∧
    fallback_chunks ≠ [] := by
  decide

/-! ### Shared helper lemmas -/

theorem take_ne_nil_of_ne_nil {α : Type _} {l : List α} {k : ℕ} (h : l ≠ []) (hk : 1 ≤ k) :
    l.take k ≠ [] := by
  cases l with
  | nil => exact absurd rfl h
  | cons a l =>
    cases k with
    | zero => omega
    | succ k => simp [List.take]

theorem fallback_search_len (query : String) (k : ℕ) (hk : 1 ≤ k) :
    1 ≤ (fallback_search query k).length ∧ (fallback_search query k).length ≤ k := by
  unfold fallback_search
  dsimp only
  split
  case isTrue h =>
    exact ⟨List.length_pos.mpr (take_ne_nil_of_ne_nil h hk), List.length_take_le _ _⟩
  case isFalse h =>
    refine ⟨List.length_pos.mpr (take_ne_nil_of_ne_nil ?_ hk), List.length_take_le _ _⟩
    decide

theorem lookupChunks_len (chunks : List String) :
    ∀ (hs : List (ℕ × ℚ)) (rs : List String),
      lookupChunks chunks hs = .ok rs → rs.length = hs.length := by
  intro hs
  induction hs with
  | nil => intro rs h; simp [lookupChunks] at h; simp [← h]
  | cons p rest ih =>
    intro rs h
    obtain ⟨i, d⟩ := p
    unfold lookupChunks at h
    cases hg : chunks[i]? with
    | none => rw [hg] at h; exact absurd h (by simp)
    | some c =>
      rw [hg] at h
      cases hr : lookupChunks chunks rest with
      | error e => rw [hr] at h; exact absurd h (by simp [Except.map])
      | ok rs' =>
        rw [hr] at h
        simp [Except.map] at h
        subst h
        simp [ih rs' hr]

theorem relevantHits_sorted (vecs : List Vec) (q : Vec) (k : ℕ) :
    List.Sorted distLE (relevantHits vecs q k) := by
  have hs : List.Sorted distLE (List.insertionSort distLE ((vecs.map (l2sq q)).enum)) :=
    List.sorted_insertionSort distLE _
  have hsub : List.Sublist (relevantHits vecs q k)
      (List.insertionSort distLE ((vecs.map (l2sq q)).enum)) := by
    unfold relevantHits faissSearch
    exact (List.filter_sublist _).trans (List.take_sublist _ _)
  exact List.Pairwise.sublist hsub hs

theorem relevantHits_length_le (vecs : List Vec) (q : Vec) (k : ℕ) :
    (relevantHits vecs q k).length ≤ min k vecs.length := by
  unfold relevantHits faissSearch
  refine le_trans (List.Sublist.length_le (List.filter_sublist _)) ?_
  rw [List.length_take, List.length_insertionSort, List.enum_length, List.length_map]

theorem relevantHits_below_threshold (vecs : List Vec) (q : Vec) (k : ℕ) :
    ∀ h ∈ relevantHits vecs q k, h.2 < relevanceThreshold := by
  intro h hm
  unfold relevantHits at hm
  exact of_decide_eq_true (List.mem_filter.mp hm).2

theorem search_core_len (svc : String → Except Unit Vec) (m : Mem)
    (query : String) (k : ℕ) (hk : 1 ≤ k) :
    1 ≤ (search_core svc m query k).length ∧
    (search_core svc m query k).length ≤ k := by
  unfold search_core
  split
  · exact fallback_search_len query k hk
  · split
    · exact fallback_search_len query k hk
    · dsimp only
      split
      · exact fallback_search_len query k hk
      · split
        · exact fallback_search_len query k hk
        · case _ vecs _ relevant hok hne =>
          constructor
          · exact List.length_pos.mpr hne
          · rw [lookupChunks_len _ _ _ hok]
            exact le_trans (relevantHits_length_le _ _ _) (min_le_left _ _)

/-- Claim C5 (amended).  A search against an index built over zero
chunks (empty cached chunk list, index handle present) does not error
and does not crash, but it does not return an empty no-relevant-context
result either: it returns the predefined fallback chunk list — keyword
filtered against the query and truncated to `top_k`, always non-empty
for `top_k ≥ 1` — i.e. predefined context not derived from the index. -/
theorem C5_amended_empty_cache_falls_back (svc : String → Except Unit Vec) (reinit : Mem)
    (mem : Mem) (query : String) (k : ℕ)
    (h1 : mem.index.isSome) (h2 : mem.cache.chunks = []) (hk : 1 ≤ k) :
    search_embeddings svc reinit mem query k = fallback_search query k ∧
    fallback_search query k ≠ [] := by
  have hnone : mem.index.isNone = false := by
    rcases hmi : mem.index with _ | v
    · rw [hmi] at h1; simp at h1
    · simp [hmi]
  constructor
  · unfold search_embeddings
    rw [hnone]
    simp only [Bool.false_eq_true, if_false]
    unfold search_core
    rw [if_pos h2]
  · exact List.length_pos.mp (fallback_search_len query k hk).1

theorem C5_amended_witness :
    (memEmptyChunks.index.isSome ∧ memEmptyChunks.cache.chunks = [] ∧ (1 : ℕ) ≤ 5) ∧
    (search_embeddings svcFail memInit memEmptyChunks "hi there" 5
        = fallback_search "hi there" 5 ∧
      fallback_search "hi there" 5 ≠ []) :=
  ⟨⟨by decide, by decide, by decide⟩,
   C5_amended_empty_cache_falls_back svcFail memInit memEmptyChunks "hi there" 5
     (by decide) (by decide) (by decide)⟩

/-- Claim C2 (amended).  What `update_embeddings` actually guarantees:
the in-memory chunk cache is never modified (on any path, success
included), and whenever the method returns `False` the persisted store
is untouched — but, as the counterexample shows, the in-memory index
handle is replaced eagerly before persistence, so there is no atomic
swap of the in-memory pair. -/
theorem C2_amended_cache_and_store_preserved (io : UpdateIO) (mem : Mem) (store : Store) :
    (update_embeddings io mem store).mem.cache = mem.cache ∧
    ((update_embeddings io mem store).updated = false →
      (update_embeddings io mem store).store = store) := by
  unfold update_embeddings
  dsimp only
  split
  · exact ⟨rfl, fun _ => rfl⟩
  · split
    · exact ⟨rfl, fun _ => rfl⟩
    · split
      · exact ⟨rfl, fun h => by simp at h⟩
      · exact ⟨rfl, fun _ => rfl⟩

theorem C2_amended_witness :
    (update_embeddings ioWriteFail memOld storeEmpty).mem.cache = memOld.cache ∧
    (update_embeddings ioWriteFail memOld storeEmpty).store = storeEmpty :=
  ⟨(C2_amended_cache_and_store_preserved ioWriteFail memOld storeEmpty).1,
   (C2_amended_cache_and_store_preserved ioWriteFail memOld storeEmpty).2 (by decide)⟩

/-- Claim C4.  For every outcome of the external services (embedding
service, re-initialization, research-data extraction, generation call,
response formatting) and every state and query, `process_query` returns
a `QueryResponse` whose status is `success`, or `no_data` carrying one of
the two polite fixed messages.  Totality of the Lean function models the
fact that every exception in the retrieval and generation path is caught
(`search_embeddings` falls back internally; `process_query`'s outer
`except` converts the rest into the fallback response), so no exception,
stack trace, or raw exception text reaches the caller. -/
theorem C4_process_query_never_raises (svc : String → Except Unit Vec) (reinit : Mem)
    (researchFound : List String → Bool) (gen : Except Unit String)
    (fmt : String → String → String) (mem : Mem) (query : String) :
    (process_query svc reinit researchFound gen fmt mem query).status = "success" ∨
    ((process_query svc reinit researchFound gen fmt mem query).status = "no_data" ∧
      ((process_query svc reinit researchFound gen fmt mem query).response = no_data_msg ∨
       (process_query svc reinit researchFound gen fmt mem query).response = fallback_msg)) := by
  unfold process_query process_contexts
  split
  · exact Or.inr ⟨rfl, Or.inl rfl⟩
  · split
    · exact Or.inr ⟨rfl, Or.inl rfl⟩
    · split
      · exact Or.inr ⟨rfl, Or.inr rfl⟩
      · exact Or.inl rfl

/-- Claim C6.  `_generate_embeddings` returns exactly one vector per
input text: when every service call succeeds the output is the ordered
image of the inputs under the service, and when any call fails the whole
call degrades to one deterministic placeholder vector of the fixed
dimensionality (1536) per input.  In both cases the output row count
equals the input length — never a shorter list. -/
theorem C6_embed_one_vector_per_input (svc : String → Except Unit Vec) (texts : List String) :
    (generate_embeddings svc texts).length = texts.length ∧
    (texts.all (fun t => (svc t).toOption.isSome) = true →
      generate_embeddings svc texts
        = texts.map (fun t => (svc t).toOption.getD (zerosVec dimension))) ∧
    (texts.all (fun t => (svc t).toOption.isSome) = false →
      generate_embeddings svc texts = List.replicate texts.length (zerosVec dimension) ∧
      ∀ v ∈ generate_embeddings svc texts, v.length = dimension) := by
  refine ⟨?_, ?_, ?_⟩
  · unfold generate_embeddings
    split <;> simp
  · intro h
    unfold generate_embeddings
    rw [if_pos h]
  · intro h
    unfold generate_embeddings
    rw [if_neg (by simp [h])]
    refine ⟨rfl, ?_⟩
    intro v hv
    rw [List.eq_of_mem_replicate hv]
    simp [zerosVec]

theorem C6_witness :
    ((generate_embeddings svcLen ["a", "bb"]).length = 2 ∧
      generate_embeddings svcLen ["a", "bb"] = [[(1 : ℚ)], [(2 : ℚ)]]) ∧
    (generate_embeddings svcFail ["a", "bb"] = List.replicate 2 (zerosVec dimension)) := by
  refine ⟨⟨(C6_embed_one_vector_per_input svcLen ["a", "bb"]).1, ?_⟩, ?_⟩
  · rw [(C6_embed_one_vector_per_input svcLen ["a", "bb"]).2.1 (by decide)]
    decide
  · exact ((C6_embed_one_vector_per_input svcFail ["a", "bb"]).2.2 (by decide)).1

/-- Claim C7.  The hits surviving the relevance filter of
`search_embeddings` are in ascending order of (squared-L2) distance —
so the top hit's distance is at most every other returned hit's — their
number is at most `min(top_k, N)` where `N` is the number of indexed
vectors, and every surviving hit's distance is strictly below the
relevance threshold (`1.0`); hits at or above the threshold are filtered
out.  These hits are exactly what the vector-search path of
`search_embeddings` maps back to chunks. -/
theorem C7_search_hits_ranked_and_filtered (vecs : List Vec) (q : Vec) (k : ℕ) :
    List.Sorted distLE (relevantHits vecs q k) ∧
    (relevantHits vecs q k).length ≤ min k vecs.length ∧
    (∀ h ∈ relevantHits vecs q k, h.2 < relevanceThreshold) :=
  ⟨relevantHits_sorted vecs q k, relevantHits_length_le vecs q k,
   relevantHits_below_threshold vecs q k⟩

/-- Claim C9.  For every oracle behavior, state, query and `top_k ≥ 1`,
`search_embeddings` returns between 1 and `top_k` chunks: the successful
vector-search path returns its non-empty filtered hits (at most `top_k`),
and every other path — empty chunk cache, missing index, out-of-range
chunk lookup, and the all-filtered case — returns the predefined
non-empty fallback list truncated to `top_k`. -/
theorem C9_search_always_nonempty (svc : String → Except Unit Vec) (reinit : Mem)
    (mem : Mem) (query : String) (k : ℕ) (hk : 1 ≤ k) :
    1 ≤ (search_embeddings svc reinit mem query k).length ∧
    (search_embeddings svc reinit mem query k).length ≤ k := by
  unfold search_embeddings
  exact search_core_len svc _ query k hk

theorem C9_witness :
    (1 : ℕ) ≤ 1 ∧
    (1 ≤ (search_embeddings svcFail memInit memEmptyChunks "hello" 1).length ∧
      (search_embeddings svcFail memInit memEmptyChunks "hello" 1).length ≤ 1) :=
  ⟨by decide, C9_search_always_nonempty svcFail memInit memEmptyChunks "hello" 1 (by decide)⟩

/-- Claim C10.  Whenever the preprocessed query (lower-cased, stripped of
every character other than lowercase letters, digits and whitespace) has
fewer than three words or contains one of the words `something`,
`anything`, `whatever`, `handle_query` returns the
`clarification_needed` response with exactly three clarification
questions (whichever strategy is chosen) and records no messages in the
conversation manager. -/
theorem C10_ambiguous_query_clarification (hasMgr : Bool) (query : String)
    (ctx : Option (List (String × String)))
    (h : (pyWords (preprocess_query query).data).length < 3 ∨
      ∃ w ∈ ambiguity_words, containsSub w.data (preprocess_query query).data = true) :
    (handle_query hasMgr query ctx).status = "clarification_needed" ∧
    (handle_query hasMgr query ctx).questions.length = 3 ∧
    (handle_query hasMgr query ctx).logged = [] := by
  have hamb : is_query_ambiguous (preprocess_query query) = true := by
    unfold is_query_ambiguous
    rcases h with h | ⟨w, hw, hsub⟩
    · exact Bool.or_eq_true _ _ |>.mpr (Or.inl (decide_eq_true h))
    · exact Bool.or_eq_true _ _ |>.mpr (Or.inr (List.any_eq_true.mpr ⟨w, hw, hsub⟩))
  simp only [handle_query, hamb, if_true]
  refine ⟨trivial, ?_, trivial⟩
  split <;> decide

theorem C10_witness :
    ((pyWords (preprocess_query "hi").data).length < 3 ∧
      (handle_query true "hi" none).status = "clarification_needed" ∧
      (handle_query true "hi" none).questions.length = 3 ∧
      (handle_query true "hi" none).logged = []) :=
  ⟨by decide, C10_ambiguous_query_clarification true "hi" none (Or.inl (by decide))⟩

theorem relevantHits_example_eval :
    relevantHits [[(0 : ℚ)], [(2 : ℚ)]] [(0 : ℚ)] 2 = [(0, 0)] := by
  norm_num [relevantHits, faissSearch, l2sq, List.insertionSort, List.orderedInsert,
    List.enum, List.enumFrom, relevanceThreshold, distLE, List.filter]

theorem C7_witness :
    ((0, (0 : ℚ)) ∈ relevantHits [[(0 : ℚ)], [(2 : ℚ)]] [(0 : ℚ)] 2 ∧
      ((0, (0 : ℚ)) : ℕ × ℚ).2 < relevanceThreshold) := by
  have hm : (0, (0 : ℚ)) ∈ relevantHits [[(0 : ℚ)], [(2 : ℚ)]] [(0 : ℚ)] 2 := by
    rw [relevantHits_example_eval]
    exact List.mem_singleton.mpr rfl
  exact ⟨hm,
    (C7_search_hits_ranked_and_filtered [[(0 : ℚ)], [(2 : ℚ)]] [(0 : ℚ)] 2).2.2 _ hm⟩

/-! ### Deduplication invariants (for Claim C8) -/

theorem uniqueSentences_mem_fst (ss : List (List Char)) :
    ∀ (seen : List (List Char)) (x : List Char),
      x ∈ (uniqueSentences seen ss).1 ↔
        x ∈ seen ∨ ∃ u ∈ (uniqueSentences seen ss).2, simpleForm u = x := by
  induction ss with
  | nil => intro seen x; simp [uniqueSentences]
  | cons s rest ih =>
    intro seen x
    unfold uniqueSentences
    by_cases hmem : simpleForm s ∈ seen
    · rw [if_pos hmem]
      rw [ih seen x]
    · rw [if_neg hmem]
      dsimp only
      rw [ih (simpleForm s :: seen) x]
      simp only [List.mem_cons]
      constructor
      · rintro (⟨h | h⟩ | ⟨u, hu, he⟩)
        · exact Or.inr ⟨s, Or.inl rfl, h.symm⟩
        · exact Or.inl h
        · exact Or.inr ⟨u, Or.inr hu, he⟩
      · rintro (h | ⟨u, hu | hu, he⟩)
        · exact Or.inl (Or.inr h)
        · exact Or.inl (Or.inl (by rw [← he, hu]))
        · exact Or.inr ⟨u, hu, he⟩

theorem uniqueSentences_snd_mem_src (ss : List (List Char)) :
    ∀ (seen : List (List Char)), ∀ u ∈ (uniqueSentences seen ss).2, u ∈ ss := by
  induction ss with
  | nil => intro seen u hu; simp [uniqueSentences] at hu
  | cons s rest ih =>
    intro seen u hu
    unfold uniqueSentences at hu
    by_cases hmem : simpleForm s ∈ seen
    · rw [if_pos hmem] at hu
      exact List.mem_cons_of_mem s (ih seen u hu)
    · rw [if_neg hmem] at hu
      rcases List.mem_cons.mp hu with h | h
      · exact h ▸ List.mem_cons_self s rest
      · exact List.mem_cons_of_mem s (ih (simpleForm s :: seen) u h)

theorem uniqueSentences_snd_not_seen (ss : List (List Char)) :
    ∀ (seen : List (List Char)), ∀ u ∈ (uniqueSentences seen ss).2,
      simpleForm u ∉ seen := by
  induction ss with
  | nil => intro seen u hu; simp [uniqueSentences] at hu
  | cons s rest ih =>
    intro seen u hu
    unfold uniqueSentences at hu
    by_cases hmem : simpleForm s ∈ seen
    · rw [if_pos hmem] at hu
      exact ih seen u hu
    · rw [if_neg hmem] at hu
      rcases List.mem_cons.mp hu with h | h
      · rw [h]; exact hmem
      · intro hcon
        exact ih (simpleForm s :: seen) u h (List.mem_cons_of_mem _ hcon)

theorem uniqueSentences_snd_pairwise (ss : List (List Char)) :
    ∀ (seen : List (List Char)),
      List.Pairwise (fun a b => simpleForm a ≠ simpleForm b) (uniqueSentences seen ss).2 := by
  induction ss with
  | nil => intro seen; simp [uniqueSentences]
  | cons s rest ih =>
    intro seen
    unfold uniqueSentences
    by_cases hmem : simpleForm s ∈ seen
    · rw [if_pos hmem]
      exact ih seen
    · rw [if_neg hmem]
      refine List.Pairwise.cons ?_ (ih (simpleForm s :: seen))
      intro b hb heq
      exact uniqueSentences_snd_not_seen rest (simpleForm s :: seen) b hb
        (heq ▸ List.mem_cons_self _ _)

theorem uniqueSentences_covers (ss : List (List Char)) :
    ∀ (seen : List (List Char)), ∀ s ∈ ss,
      simpleForm s ∈ seen ∨
        ∃ u ∈ (uniqueSentences seen ss).2, simpleForm u = simpleForm s := by
  induction ss with
  | nil => intro seen s hs; simp at hs
  | cons t rest ih =>
    intro seen s hs
    unfold uniqueSentences
    by_cases hmem : simpleForm t ∈ seen
    · rw [if_pos hmem]
      rcases List.mem_cons.mp hs with h | h
      · exact Or.inl (h ▸ hmem)
      · exact ih seen s h
    · rw [if_neg hmem]
      dsimp only
      rcases List.mem_cons.mp hs with h | h
      · exact Or.inr ⟨t, List.mem_cons_self _ _, by rw [h]⟩
      · rcases ih (simpleForm t :: seen) s h with hseen | ⟨u, hu, he⟩
        · rcases List.mem_cons.mp hseen with he | hseen
          · exact Or.inr ⟨t, List.mem_cons_self _ _, he.symm⟩
          · exact Or.inl hseen
        · exact Or.inr ⟨u, List.mem_cons_of_mem _ hu, he⟩

theorem dedupPass_mem_fst (ctxs : List String) :
    ∀ (seen : List (List Char)) (x : List Char),
      x ∈ (dedupPass seen ctxs).1 ↔
        x ∈ seen ∨ ∃ u ∈ (dedupPass seen ctxs).2.flatten, simpleForm u = x := by
  induction ctxs with
  | nil => intro seen x; simp [dedupPass]
  | cons ctx rest ih =>
    intro seen x
    unfold dedupPass
    dsimp only
    rw [ih (uniqueSentences seen (sentencesOf ctx)).1 x]
    rw [uniqueSentences_mem_fst (sentencesOf ctx) seen x]
    simp only [List.flatten_cons, List.mem_append]
    constructor
    · rintro ((h | ⟨u, hu, he⟩) | ⟨u, hu, he⟩)
      · exact Or.inl h
      · exact Or.inr ⟨u, Or.inl hu, he⟩
      · exact Or.inr ⟨u, Or.inr hu, he⟩
    · rintro (h | ⟨u, hu | hu, he⟩)
      · exact Or.inl (Or.inl h)
      · exact Or.inl (Or.inr ⟨u, hu, he⟩)
      · exact Or.inr ⟨u, hu, he⟩

theorem dedupPass_flatten_mem_src (ctxs : List String) :
    ∀ (seen : List (List Char)), ∀ u ∈ (dedupPass seen ctxs).2.flatten,
      ∃ ctx ∈ ctxs, u ∈ sentencesOf ctx := by
  induction ctxs with
  | nil => intro seen u hu; simp [dedupPass] at hu
  | cons ctx rest ih =>
    intro seen u hu
    unfold dedupPass at hu
    rw [List.flatten_cons] at hu
    rcases List.mem_append.mp hu with h | h
    · exact ⟨ctx, List.mem_cons_self _ _,
        uniqueSentences_snd_mem_src (sentencesOf ctx) seen u h⟩
    · obtain ⟨c, hc, hm⟩ := ih (uniqueSentences seen (sentencesOf ctx)).1 u h
      exact ⟨c, List.mem_cons_of_mem _ hc, hm⟩

theorem dedupPass_flatten_not_seen (ctxs : List String) :
    ∀ (seen : List (List Char)), ∀ u ∈ (dedupPass seen ctxs).2.flatten,
      simpleForm u ∉ seen := by
  induction ctxs with
  | nil => intro seen u hu; simp [dedupPass] at hu
  | cons ctx rest ih =>
    intro seen u hu
    unfold dedupPass at hu
    rw [List.flatten_cons] at hu
    rcases List.mem_append.mp hu with h | h
    · exact uniqueSentences_snd_not_seen (sentencesOf ctx) seen u h
    · intro hcon
      refine ih (uniqueSentences seen (sentencesOf ctx)).1 u h ?_
      exact (uniqueSentences_mem_fst (sentencesOf ctx) seen (simpleForm u)).mpr (Or.inl hcon)

theorem dedupPass_flatten_pairwise (ctxs : List String) :
    ∀ (seen : List (List Char)),
      List.Pairwise (fun a b => simpleForm a ≠ simpleForm b)
        (dedupPass seen ctxs).2.flatten := by
  induction ctxs with
  | nil => intro seen; simp [dedupPass]
  | cons ctx rest ih =>
    intro seen
    unfold dedupPass
    dsimp only
    rw [List.flatten_cons, List.pairwise_append]
    refine ⟨uniqueSentences_snd_pairwise (sentencesOf ctx) seen,
      ih (uniqueSentences seen (sentencesOf ctx)).1, ?_⟩
    intro a ha b hb heq
    refine dedupPass_flatten_not_seen rest (uniqueSentences seen (sentencesOf ctx)).1 b hb ?_
    rw [← heq]
    exact (uniqueSentences_mem_fst (sentencesOf ctx) seen (simpleForm a)).mpr
      (Or.inr ⟨a, ha, rfl⟩)

theorem dedupPass_covers (ctxs : List String) :
    ∀ (seen : List (List Char)), ∀ ctx ∈ ctxs, ∀ s ∈ sentencesOf ctx,
      simpleForm s ∈ seen ∨
        ∃ u ∈ (dedupPass seen ctxs).2.flatten, simpleForm u = simpleForm s := by
  induction ctxs with
  | nil => intro seen c hc; simp at hc
  | cons ctx rest ih =>
    intro seen c hc s hs
    unfold dedupPass
    dsimp only
    rw [List.flatten_cons]
    rcases List.mem_cons.mp hc with h | h
    · rcases uniqueSentences_covers (sentencesOf ctx) seen s (h ▸ hs) with hseen | ⟨u, hu, he⟩
      · exact Or.inl hseen
      · exact Or.inr ⟨u, List.mem_append.mpr (Or.inl hu), he⟩
    · rcases ih (uniqueSentences seen (sentencesOf ctx)).1 c h s hs with hseen | ⟨u, hu, he⟩
      · rcases (uniqueSentences_mem_fst (sentencesOf ctx) seen (simpleForm s)).mp hseen with
          hin | ⟨u, hu, he⟩
        · exact Or.inl hin
        · exact Or.inr ⟨u, List.mem_append.mpr (Or.inl hu), he⟩
      · exact Or.inr ⟨u, List.mem_append.mpr (Or.inr hu), he⟩

/-- Claim C8.  The deduplication pass of
`_format_and_deduplicate_context` works at the sentence level across all
returned chunks: (i) no two emitted sentences share the same normalized
(lower-cased, whitespace-collapsed) signature; (ii) every emitted
sentence is verbatim one of the input chunks' sentences; (iii) every
input sentence's normalized form is represented by exactly one emitted
sentence — so a sentence occurring in two chunks appears exactly once in
the final formatted context (which is the join of the emitted
sentences). -/
theorem C8_dedup_exactly_once (contexts : List String) :
    List.Pairwise (fun a b => simpleForm a ≠ simpleForm b) (emittedSentences contexts) ∧
    (∀ u ∈ emittedSentences contexts, ∃ ctx ∈ contexts, u ∈ sentencesOf ctx) ∧
    (∀ ctx ∈ contexts, ∀ s ∈ sentencesOf ctx,
      ∃ u ∈ emittedSentences contexts, simpleForm u = simpleForm s) := by
  refine ⟨dedupPass_flatten_pairwise contexts [], dedupPass_flatten_mem_src contexts [], ?_⟩
  intro ctx hc s hs
  rcases dedupPass_covers contexts [] ctx hc s hs with hseen | h
  · simp at hseen
  · exact h

theorem C8_witness :
    (dedupCtxB ∈ dedupContexts ∧ dedupSentence ∈ sentencesOf dedupCtxB) ∧
    (∃ u ∈ emittedSentences dedupContexts, simpleForm u = simpleForm dedupSentence) ∧
    (emittedSentences dedupContexts).countP
      (fun u => simpleForm u = simpleForm dedupSentence) = 1 :=
  ⟨⟨by decide, by decide⟩,
   (C8_dedup_exactly_once dedupContexts).2.2 dedupCtxB (by decide) dedupSentence (by decide),
   by decide⟩

end HospitalGPT
